import Mathlib

/-!
Verification development for the build-execution subsystem of Stellar-TUI
(`src/build.rs`): target-name resolution, artifact cleanup, subprocess
supervision with cooperative cancellation, and the clean-rebuild phase
sequence.

The Rust code is shallowly embedded: filesystem state, subprocess outcomes
and the atomic cancellation flag become explicit parameters; `Result<T,
String>` becomes `Except String T`; side effects (log lines sent over the
`mpsc` channel, paths removed, processes spawned/killed) become explicit
event lists returned by the embedded functions, in program order.

Rust `&str` operations are modelled on the character list underlying a Lean
`String` so that all definitions reduce in the kernel: `trim`,
`to_lowercase`, `ends_with`, `strip_suffix` become `chTrim`, `chToLower`,
`chEndsWith`, `chStripSuffix` below.  These agree with the Rust methods on
ASCII data (Unicode case folding / whitespace classes beyond ASCII are not
needed by any claim).
-/

namespace StellarBuild

/-! ## String primitives (models of Rust `&str` methods) -/

/-- Model of Rust `str::ends_with`. -/
def chEndsWith (s suf : String) : Bool :=
  suf.data == s.data.drop (s.data.length - suf.data.length)

/-- Model of Rust `str::trim` (leading and trailing whitespace removed). -/
def chTrim (s : String) : String :=
  ⟨((s.data.dropWhile Char.isWhitespace).reverse.dropWhile Char.isWhitespace).reverse⟩

/-- Model of Rust `str::to_lowercase`. -/
def chToLower (s : String) : String := ⟨s.data.map Char.toLower⟩

/-- Model of Rust `str::strip_suffix`: `some` of the string with the suffix
removed when the suffix is present, `none` otherwise. -/
def chStripSuffix (s suf : String) : Option String :=
  if chEndsWith s suf then some ⟨s.data.take (s.data.length - suf.data.length)⟩ else none

/-- Model of Rust `str::is_empty`. -/
def chIsEmpty (s : String) : Bool := s.data.isEmpty

/-- Lexicographic comparison of character lists; model of the `Ord` used by
Rust `Vec<String>::sort`. -/
def chLe (a b : List Char) : Bool :=
  match a, b with
  | [], _ => true
  | _ :: _, [] => false
  | x :: xs, y :: ys => if x = y then chLe xs ys else decide (x < y)

/-- Stable insertion into a sorted list of strings. -/
def insertSorted (x : String) : List String → List String
  | [] => [x]
  | y :: ys => if chLe x.data y.data then x :: y :: ys else y :: insertSorted x ys

/-- Model of Rust `Vec<String>::sort()`.  Insertion sort: over the total
order on strings every comparison sort produces this same list. -/
def sortStrings : List String → List String
  | [] => []
  | x :: xs => insertSorted x (sortStrings xs)

/-- Model of Rust `Vec::dedup()`: removes consecutive duplicates. -/
def dedupAdjacent : List String → List String
  | [] => []
  | [a] => [a]
  | a :: b :: rest =>
    if a = b then dedupAdjacent (b :: rest) else a :: dedupAdjacent (b :: rest)

/-- Model of `Vec<String>::join(", ")` / used for the ambiguous-target
error message. -/
def joinComma : List String → String
  | [] => ""
  | [a] => a
  | a :: rest => a ++ ", " ++ joinComma rest

/-! ## Filesystem state visible to target resolution

`derive_editor_target` touches the filesystem only through:
`PathBuf::from(project_path).exists()`, `path.parent()`, `path.file_stem()`,
`source_dir.is_dir()` and `std::fs::read_dir(source_dir)`.  Those
observations are the fields below.  A failed `read_dir` yields no targets in
the Rust code; it is represented here by `sourceEntries = []`. -/

structure BuildFs where
  /-- The project path string exactly as passed to `derive_editor_target`. -/
  raw : String
  /-- `PathBuf::from(project_path).exists()`. -/
  projectExists : Bool
  /-- `path.parent().is_some()`. -/
  hasParent : Bool
  /-- `path.file_stem()`, as a string when present. -/
  fileStem : Option String
  /-- `source_dir.is_dir()` for `<project_dir>/Source`. -/
  sourceIsDir : Bool
  /-- File names listed by `std::fs::read_dir` on `<project_dir>/Source`. -/
  sourceEntries : List String

/-- Embedding of `scan_editor_targets` (src/build.rs:79-98): collect entries
ending in `"Editor.Target.cs"`, stripped of the `".Target.cs"` suffix. -/
def scan_editor_targets (fs : BuildFs) : List String :=
  if !fs.sourceIsDir then []
  else fs.sourceEntries.filterMap fun fileName =>
    if chEndsWith fileName "Editor.Target.cs" then chStripSuffix fileName ".Target.cs"
    else none

/-- The sorted, deduplicated candidate list `discover_editor_targets`
produces on its success path. -/
def candidateList (fs : BuildFs) : List String :=
  dedupAdjacent (sortStrings (scan_editor_targets fs))

/-- Embedding of `discover_editor_targets` (src/build.rs:101-116). -/
def discover_editor_targets (fs : BuildFs) : Except String (List String) :=
  if !fs.projectExists then
    .error ("Project file not found: " ++ fs.raw)
  else if !fs.hasParent then
    .error "Cannot determine project directory"
  else
    .ok (candidateList fs)

/-- The convention-derived target name: the project file stem, with
`"Editor"` appended unless the stem already ends in `"editor"`
case-insensitively (src/build.rs:49-53). -/
def expectedName (stem : String) : String :=
  if chEndsWith (chToLower stem) "editor" then stem else stem ++ "Editor"

/-- Embedding of `derive_editor_target` (src/build.rs:39-76). -/
def derive_editor_target (fs : BuildFs) : Except String String := do
  let editorTargets ← discover_editor_targets fs
  let stem ← match fs.fileStem with
    | none => Except.error "Invalid project file name"
    | some s => Except.ok s
  let expected := expectedName stem
  if editorTargets.isEmpty then
    return expected
  if editorTargets.length == 1 then
    return editorTargets.headD ""
  if editorTargets.contains expected then
    return expected
  Except.error ("Multiple editor targets found but none match '" ++ expected ++ "': "
    ++ joinComma editorTargets ++ ". Set the target manually.")

/-- Embedding of the target-name resolution step of `spawn_build`
(src/build.rs:151-155): a supplied override is trimmed and, when non-empty,
used directly; otherwise `derive_editor_target` runs. -/
def resolve_target_name (editorTargetOverride : Option String) (fs : BuildFs) :
    Except String String :=
  match (editorTargetOverride.map chTrim).filter (fun s => !chIsEmpty s) with
  | some s => Except.ok s
  | none => derive_editor_target fs

/-! ## The synchronous part of `spawn_build` (src/build.rs:134-211)

`spawn_build` first checks that the UnrealBuildTool entry point exists,
then resolves the target name, sends one `Running: …` log line and spawns
the background task, returning a `BuildHandle`.  In the embedding the
`Except.ok` payload records everything the successful path produced before
returning (the pre-task log lines and the resolved target); an
`Except.error` result means the function returned early: no handle was
created, no background task was spawned and no log line was sent, exactly
as in the source where the error returns precede every `tx.send` and the
`tokio::spawn`. -/

inductive BuildMode where
  | Standard
  | CleanRebuild
deriving DecidableEq, Repr

structure SpawnEnv where
  /-- Display form of `<engine_path>/Engine/Binaries/DotNET/UnrealBuildTool/UnrealBuildTool.dll`. -/
  ubtDisplay : String
  /-- `ubt_dll.exists()`. -/
  ubtExists : Bool
  /-- The `project_path` argument. -/
  projectPath : String
  /-- The `editor_target_override` argument. -/
  editorTargetOverride : Option String
  /-- Filesystem state seen by target discovery. -/
  fs : BuildFs

structure SpawnOk where
  /-- Log lines sent before the background task was spawned. -/
  preTaskLogs : List String
  /-- The resolved target name handed to the background task. -/
  targetName : String
deriving DecidableEq, Repr

/-- Embedding of the synchronous prefix of `spawn_build`
(src/build.rs:134-211): tool-existence check, target resolution, the
`Running:` log line. -/
def spawn_build (env : SpawnEnv) (mode : BuildMode) : Except String SpawnOk :=
  if !env.ubtExists then
    Except.error ("UnrealBuildTool not found at " ++ env.ubtDisplay)
  else do
    let targetName ← resolve_target_name env.editorTargetOverride env.fs
    let cmdTail := "dotnet \"" ++ env.ubtDisplay ++ "\" " ++ targetName
      ++ " Win64 Development -Project=\"" ++ env.projectPath ++ "\" -WaitMutex"
    let cmdDisplay := match mode with
      | .Standard => cmdTail
      | .CleanRebuild =>
        "Clean Rebuild -> clean temp files, regenerate project files, then: " ++ cmdTail
    Except.ok { preTaskLogs := ["Running: " ++ cmdDisplay], targetName := targetName }

instance {e a : Type} [DecidableEq e] [DecidableEq a] : DecidableEq (Except e a) := fun x y =>
  match x, y with
  | .ok u, .ok v => if h : u = v then .isTrue (by rw [h]) else .isFalse (by simp [h])
  | .error u, .error v => if h : u = v then .isTrue (by rw [h]) else .isFalse (by simp [h])
  | .ok _, .error _ => .isFalse (by simp)
  | .error _, .ok _ => .isFalse (by simp)

/-! ## Artifact cleanup (`clean_project_artifacts`, src/build.rs:312-353)

The filesystem is modelled as the list of currently existing paths plus an
oracle saying whether an attempted removal of a path fails (and with which
OS error message).  A successful removal erases the path from the existing
set; path-string syntax (`Path::join`, `with_extension`, `file_stem`) is
abstracted: joins are `dir ++ "/" ++ name`, and the solution-file path
derived via `with_extension("sln")` is an explicit input. -/

structure CleanFs where
  /-- Paths that currently exist (`path.exists()` is membership here). -/
  live : List String
  /-- `some e` when attempting to remove this path fails with OS error `e`. -/
  failRemove : String → Option String

/-- The observable outcome of a cleanup run: final filesystem, log lines
sent over `tx` in order, paths successfully removed in order, and the
returned `Result`. -/
structure CleanOut where
  fs : CleanFs
  logs : List String
  removed : List String
  result : Except String Unit

/-- Model of `Path::join` on string paths. -/
def pathJoin (dir name : String) : String := dir ++ "/" ++ name

/-- One removal attempt (`tokio::fs::remove_dir_all` / `remove_file` with
the `map_err` of src/build.rs:326-328 and 346-348). -/
def removePath (fs : CleanFs) (p : String) : Except String CleanFs :=
  match fs.failRemove p with
  | some e => Except.error ("Failed to remove " ++ p ++ ": " ++ e)
  | none => Except.ok { fs with live := fs.live.erase p }

/-- One of the two removal loops of `clean_project_artifacts`: for each
path in order, if it exists, log `Removing <kind>: <path>` and remove it;
a removal failure aborts the rest.  Missing paths are skipped silently. -/
def removeEach (kind : String) : CleanFs → List String → CleanOut
  | fs, [] => { fs := fs, logs := [], removed := [], result := Except.ok () }
  | fs, p :: rest =>
    if fs.live.contains p then
      match removePath fs p with
      | .error e =>
        { fs := fs, logs := ["Removing " ++ kind ++ ": " ++ p], removed := [],
          result := Except.error e }
      | .ok fs' =>
        let out := removeEach kind fs' rest
        { fs := out.fs, logs := ("Removing " ++ kind ++ ": " ++ p) :: out.logs,
          removed := p :: out.removed, result := out.result }
    else removeEach kind fs rest

/-- The solution-file paths `clean_project_artifacts` tries
(src/build.rs:332-341): the project file with its extension replaced by
`sln` (an explicit input here), then `<project_dir>/<stem>.sln` when the
stem exists. -/
def slnFiles (projectDir : String) (slnFromProject : String) (stem : Option String) :
    List String :=
  slnFromProject :: (match stem with
    | some s => [pathJoin projectDir (s ++ ".sln")]
    | none => [])

/-- The directories `clean_project_artifacts` removes, in order. -/
def cleanDirs (projectDir : String) : List String :=
  ["Binaries", "Intermediate", "Saved", ".vs"].map (pathJoin projectDir)

/-- Every path the cleanup step may touch, in the order it is considered. -/
def cleanCandidates (projectDir : String) (slnFromProject : String) (stem : Option String) :
    List String :=
  cleanDirs projectDir ++ slnFiles projectDir slnFromProject stem

/-- Embedding of `clean_project_artifacts` (src/build.rs:312-353).
`projectDir` is `project_dir` (`None` when the project path has no parent),
`slnFromProject` is `project_file.with_extension("sln")` and `stem` is
`project_file.file_stem()`. -/
def clean_project_artifacts (fs : CleanFs) (projectDir : Option String)
    (slnFromProject : String) (stem : Option String) : CleanOut :=
  match projectDir with
  | none =>
    { fs := fs, logs := [], removed := [],
      result := Except.error "Could not determine project directory for clean rebuild." }
  | some pdir =>
    let dout := removeEach "directory" fs (cleanDirs pdir)
    match dout.result with
    | .error _ => dout
    | .ok _ =>
      let fout := removeEach "file" dout.fs (slnFiles pdir slnFromProject stem)
      { fs := fout.fs, logs := dout.logs ++ fout.logs,
        removed := dout.removed ++ fout.removed, result := fout.result }

/-! ## Metadata regeneration (`regenerate_project_files`, src/build.rs:355-399)

The regeneration subprocess is run with `cmd.output().await`, which
collects the entire stdout/stderr only after the process has exited; the
function then forwards first every non-blank stdout line, then every
non-blank stderr line, and finally maps the exit status to `Ok`/`Err`.
The subprocess outcome is an explicit environment record; the decoded
output lines stand in for `String::from_utf8_lossy(..).lines()`. -/

structure RegenEnv where
  /-- `some e` when `cmd.output().await` itself fails with error `e`. -/
  spawnError : Option String
  /-- Decoded stdout lines of the completed process, in order. -/
  stdoutLines : List String
  /-- Decoded stderr lines of the completed process, in order. -/
  stderrLines : List String
  /-- `output.status.success()`. -/
  exitSuccess : Bool
  /-- Display form of `output.status`, used in the failure message. -/
  statusDisplay : String

/-- A line is forwarded iff it is non-blank after trimming
(src/build.rs:380,386). -/
def keepLine (l : String) : Bool := !chIsEmpty (chTrim l)

/-- The log lines `regenerate_project_files` sends when the process ran:
non-blank stdout lines in order, then non-blank stderr lines in order. -/
def regenLogs (r : RegenEnv) : List String :=
  r.stdoutLines.filter keepLine ++ r.stderrLines.filter keepLine

/-- Embedding of `regenerate_project_files` (src/build.rs:355-399): the log
lines sent, and the returned `Result`. -/
def regenerate_project_files (r : RegenEnv) : List String × Except String Unit :=
  match r.spawnError with
  | some e => ([], Except.error ("Failed to regenerate project files: " ++ e))
  | none =>
    (regenLogs r,
      if r.exitSuccess then Except.ok ()
      else Except.error ("Project file generation failed with status: " ++ r.statusDisplay))

/-- Observable events of the regeneration phase, in program order:
`procExited` marks the return of `cmd.output().await` (the subprocess has
exited), `line` a log line delivered to the channel. -/
inductive RegenEv where
  | procExited
  | line (s : String)
deriving DecidableEq, Repr

/-- Event trace of `regenerate_project_files` when the subprocess ran:
`output().await` returns (the process exits) strictly before any line is
sent. -/
def regen_trace (r : RegenEnv) : List RegenEv :=
  match r.spawnError with
  | some _ => []
  | none => RegenEv.procExited :: (regenLogs r).map RegenEv.line

/-! ## The background build task (`run_build_process`, src/build.rs:213-310)

The async body is embedded as a pure function from an environment — the
cancellation flag's value at each of its atomic loads, the cleanup
filesystem, and the subprocess outcomes — to the event trace it produces
(log lines, compile-process spawn/kill), the final cleanup filesystem, and
its `Result<bool, String>`.  The cancellation flag is loaded at exactly
these places: before the clean phase (line 226), before the regeneration
phase (line 234), and at the top of each poll-loop iteration (line 288);
those loads are the `cancelAtCleanCheck`, `cancelAtRegenCheck` and
`cancelPoll k` fields.  The compile subprocess's own stdout/stderr
streaming (lines 268-284) and a `try_wait` error are not needed by any
claim and are abstracted away: the poll loop here either observes
cancellation or, after `exitAfterPolls` non-cancelled iterations, observes
the exit status. -/

inductive BuildEv where
  /-- A line sent over `tx`. -/
  | log (s : String)
  /-- `cmd.spawn()` succeeded for the compile subprocess (line 258). -/
  | spawnCompile
  /-- `child.kill()` on cancellation (line 289). -/
  | killCompile
deriving DecidableEq, Repr

structure RunEnv where
  /-- Cleanup filesystem state (CleanRebuild only). -/
  cleanFs : CleanFs
  /-- `project_dir` (parent of the project path). -/
  projectDir : Option String
  /-- `project_file.with_extension("sln")`. -/
  slnFromProject : String
  /-- `project_file.file_stem()`. -/
  stem : Option String
  /-- Outcome of the regeneration subprocess. -/
  regen : RegenEnv
  /-- `some e` when `cmd.spawn()` for the compile process fails with `e`. -/
  compileSpawnError : Option String
  /-- Value of `cancel_flag` at the load before the clean phase (line 226). -/
  cancelAtCleanCheck : Bool
  /-- Value of `cancel_flag` at the load before the regeneration phase (line 234). -/
  cancelAtRegenCheck : Bool
  /-- Value of `cancel_flag` at its load in poll-loop iteration `k` (line 288). -/
  cancelPoll : Nat → Bool
  /-- Number of poll iterations in which `try_wait` returns `None` before
  the process is observed exited. -/
  exitAfterPolls : Nat
  /-- `status.success()` of the compile process when it exits. -/
  exitSuccess : Bool

/-- The poll loop of src/build.rs:287-309: at iteration `k`, a set cancel
flag kills the process and returns `Ok(false)`; otherwise after `fuel`
more non-cancelled iterations the exit status is observed. -/
def pollLoop (cancelPoll : Nat → Bool) (exitSuccess : Bool) :
    Nat → Nat → List BuildEv × Except String Bool
  | fuel, k =>
    if cancelPoll k then
      ([BuildEv.killCompile, BuildEv.log "Build process killed."], Except.ok false)
    else
      match fuel with
      | 0 => ([], Except.ok exitSuccess)
      | fuel' + 1 => pollLoop cancelPoll exitSuccess fuel' (k + 1)

/-- The compile phase of `run_build_process` (src/build.rs:243-309): spawn
the compile subprocess, then poll for exit or cancellation. -/
def compilePhase (env : RunEnv) : List BuildEv × Except String Bool :=
  match env.compileSpawnError with
  | some e => ([], Except.error ("Failed to spawn dotnet: " ++ e))
  | none =>
    let (evs, r) := pollLoop env.cancelPoll env.exitSuccess env.exitAfterPolls 0
    (BuildEv.spawnCompile :: evs, r)

/-- Embedding of `run_build_process` (src/build.rs:213-310): event trace,
final cleanup filesystem, and the returned `Result<bool, String>`. -/
def run_build_process (mode : BuildMode) (env : RunEnv) :
    List BuildEv × CleanFs × Except String Bool :=
  match mode with
  | .Standard =>
    let (evs, r) := compilePhase env
    (evs, env.cleanFs, r)
  | .CleanRebuild =>
    if env.cancelAtCleanCheck then
      ([BuildEv.log "Clean rebuild cancelled before starting."], env.cleanFs, Except.ok false)
    else
      let cout := clean_project_artifacts env.cleanFs env.projectDir env.slnFromProject env.stem
      let cleanEvs := BuildEv.log "Clean rebuild: removing temporary project files..."
        :: cout.logs.map BuildEv.log
      match cout.result with
      | .error e => (cleanEvs, cout.fs, Except.error e)
      | .ok _ =>
        if env.cancelAtRegenCheck then
          (cleanEvs ++ [BuildEv.log "Clean rebuild cancelled before project file generation."],
            cout.fs, Except.ok false)
        else
          let (rlogs, rres) := regenerate_project_files env.regen
          let regenEvs := cleanEvs
            ++ [BuildEv.log "Clean rebuild: regenerating project files..."]
            ++ rlogs.map BuildEv.log
          match rres with
          | .error e => (regenEvs, cout.fs, Except.error e)
          | .ok _ =>
            let (evs, r) := compilePhase env
            (regenEvs ++ evs, cout.fs, r)

/-- The result of the background task spawned by `spawn_build`
(src/build.rs:186-208): the full event trace (including the `Build error:`
line sent when `run_build_process` returns `Err`), the final cleanup
filesystem, and the final `(finished, success)` flag values. -/
def buildTask (mode : BuildMode) (env : RunEnv) :
    List BuildEv × CleanFs × Bool × Bool :=
  let (evs, fsOut, r) := run_build_process mode env
  match r with
  | .ok b => (evs, fsOut, true, b)
  | .error e => (evs ++ [BuildEv.log ("Build error: " ++ e)], fsOut, true, false)

/-! ## The build handle (`BuildHandle`, src/build.rs:12-33, 176-208)

The three `Arc<AtomicBool>` flags become a record.  The single writer of
`finished`/`success` is the background task; its stores, in program order,
are `success.store(b)` then `finished.store(true)` (src/build.rs:198-207).
The model is sequentially consistent: each store is immediately visible to
the polling reader (the source uses `Ordering::Relaxed`, but there is one
writer and the claims describe the values written, which this captures). -/

structure HandleState where
  finished : Bool
  success : Bool
  cancelRequested : Bool
deriving DecidableEq, Repr

/-- Flag values at handle creation (src/build.rs:176-178). -/
def initialHandle : HandleState :=
  { finished := false, success := false, cancelRequested := false }

/-- Embedding of `BuildHandle::try_finished` (src/build.rs:21-27). -/
def try_finished (s : HandleState) : Option Bool :=
  if s.finished then some s.success else none

/-- Embedding of `BuildHandle::cancel` (src/build.rs:30-32):
`cancel_flag.store(true)`. -/
def cancel (s : HandleState) : HandleState := { s with cancelRequested := true }

/-- A store performed by the background task on the handle's flags. -/
inductive HandleWrite where
  | storeSuccess (b : Bool)
  | storeFinished
deriving DecidableEq, Repr

/-- Effect of one store on the handle state. -/
def applyWrite (s : HandleState) : HandleWrite → HandleState
  | .storeSuccess b => { s with success := b }
  | .storeFinished => { s with finished := true }

/-- The final success value the task stores for a given
`run_build_process` result (src/build.rs:198-206). -/
def resultSuccess (r : Except String Bool) : Bool :=
  match r with
  | .ok b => b
  | .error _ => false

/-- The stores the background task performs on the handle, in program
order (src/build.rs:198-207): the success flag first, then the finished
flag, and nothing afterwards. -/
def taskWrites (r : Except String Bool) : List HandleWrite :=
  [HandleWrite.storeSuccess (resultSuccess r), HandleWrite.storeFinished]

/-- The sequence of handle states visible to the polling caller: the
initial state followed by the state after each store of the task. -/
def handleStates (r : Except String Bool) : List HandleState :=
  (taskWrites r).scanl applyWrite initialHandle

/-! ## Concrete fixtures used by witness and counterexample theorems -/

/-- Fixture: project `Foo.uproject` whose `Source/` directory holds two
editor target files and one non-editor target file. -/
def fsFoo : BuildFs :=
  { raw := "C:/proj/Foo.uproject", projectExists := true, hasParent := true,
    fileStem := some "Foo", sourceIsDir := true,
    sourceEntries := ["FooEditor.Target.cs", "BarEditor.Target.cs", "Game.Target.cs"] }

/-- Fixture: a cleanup filesystem where the `Binaries` directory and the
stem-derived solution file exist and every removal succeeds. -/
def cleanFsFoo : CleanFs :=
  { live := ["C:/proj/Binaries", "C:/proj/Foo.sln"], failRemove := fun _ => none }

/-- Fixture: a run environment whose cancellation flag is set from the
start (every load of the flag returns `true`), whose clean and regeneration
phases would succeed, and whose compile process would spawn fine. -/
def envCancelled : RunEnv :=
  { cleanFs := cleanFsFoo, projectDir := some "C:/proj",
    slnFromProject := "C:/proj/Foo.sln", stem := some "Foo",
    regen := { spawnError := none, stdoutLines := [], stderrLines := [],
               exitSuccess := true, statusDisplay := "exit code: 0" },
    compileSpawnError := none,
    cancelAtCleanCheck := true, cancelAtRegenCheck := true,
    cancelPoll := fun _ => true, exitAfterPolls := 3, exitSuccess := true }

/-- Fixture: a clean-rebuild run environment that is never cancelled and
whose regeneration process exits with a non-zero status. -/
def envRegenFails : RunEnv :=
  { envCancelled with
    cancelAtCleanCheck := false, cancelAtRegenCheck := false,
    cancelPoll := fun _ => false,
    regen := { spawnError := none, stdoutLines := ["Generating files..."],
               stderrLines := ["error: bad module"], exitSuccess := false,
               statusDisplay := "exit code: 6" } }

end StellarBuild

/-! # Theorems settling the claims -/

namespace StellarBuild

/-- Reduction of `derive_editor_target` on the path where discovery and
stem extraction both succeed. -/
theorem derive_editor_target_eq (fs : BuildFs) (s : String)
    (hex : fs.projectExists = true) (hpar : fs.hasParent = true)
    (hstem : fs.fileStem = some s) :
    derive_editor_target fs =
      (if (candidateList fs).isEmpty then Except.ok (expectedName s)
       else if (candidateList fs).length == 1 then Except.ok ((candidateList fs).headD "")
       else if (candidateList fs).contains (expectedName s) then Except.ok (expectedName s)
       else Except.error ("Multiple editor targets found but none match '" ++ expectedName s
         ++ "': " ++ joinComma (candidateList fs) ++ ". Set the target manually.")) := by
  simp only [derive_editor_target, discover_editor_targets, hex, hpar, hstem]
  rfl

/-- C1: with the project file present, `derive_editor_target` follows the
decision table over the sorted, deduplicated candidate list: convention
fallback for zero candidates, the lone candidate for one, the convention
name when it is among several, and otherwise an error listing every
candidate. -/
theorem derive_editor_target_decision_table (fs : BuildFs) (s : String)
    (hex : fs.projectExists = true) (hpar : fs.hasParent = true)
    (hstem : fs.fileStem = some s) :
    (candidateList fs = [] → derive_editor_target fs = Except.ok (expectedName s)) ∧
    (∀ c, candidateList fs = [c] → derive_editor_target fs = Except.ok c) ∧
    (2 ≤ (candidateList fs).length → expectedName s ∈ candidateList fs →
      derive_editor_target fs = Except.ok (expectedName s)) ∧
    (2 ≤ (candidateList fs).length → expectedName s ∉ candidateList fs →
      derive_editor_target fs = Except.error ("Multiple editor targets found but none match '"
        ++ expectedName s ++ "': " ++ joinComma (candidateList fs)
        ++ ". Set the target manually.")) := by
  rw [derive_editor_target_eq fs s hex hpar hstem]
  generalize candidateList fs = C
  match C with
  | [] => simp
  | [c] => simp
  | a :: b :: t =>
    refine ⟨by simp, by simp, ?_, ?_⟩
    · intro _ hmem
      simp [hmem]
    · intro _ hmem
      simp [hmem]

/-- Witness for C1: on `fsFoo` the candidates are `[BarEditor, FooEditor]`
and the convention name `FooEditor` is among them, so it is returned. -/
theorem derive_editor_target_decision_table_witness :
    derive_editor_target fsFoo = Except.ok "FooEditor" := by
  have h := derive_editor_target_decision_table fsFoo "Foo" rfl rfl rfl
  have h3 := h.2.2.1 (by decide) (by decide)
  have he : expectedName "Foo" = "FooEditor" := by decide
  rw [he] at h3
  exact h3

/-- C9: target resolution without an override requires the project file to
exist — a nonexistent project path yields the `Project file not found`
error rather than the convention fallback — while a missing
`<project_dir>/Source/` directory means zero candidates and does trigger
the fallback. -/
theorem derive_editor_target_missing_paths (fs : BuildFs) (s : String) :
    (fs.projectExists = false →
      derive_editor_target fs = Except.error ("Project file not found: " ++ fs.raw)) ∧
    (fs.projectExists = true → fs.hasParent = true → fs.fileStem = some s →
      fs.sourceIsDir = false → derive_editor_target fs = Except.ok (expectedName s)) := by
  constructor
  · intro hex
    simp only [derive_editor_target, discover_editor_targets, hex]
    rfl
  · intro hex hpar hstem hsrc
    rw [derive_editor_target_eq fs s hex hpar hstem]
    have hscan : candidateList fs = [] := by
      simp [candidateList, scan_editor_targets, hsrc, sortStrings, dedupAdjacent]
    rw [hscan]
    simp

/-- Witness for C9: both conjuncts at concrete filesystems — a missing
project file errors, a present project with no `Source/` directory falls
back to `FooEditor`. -/
theorem derive_editor_target_missing_paths_witness :
    derive_editor_target { fsFoo with projectExists := false } =
      Except.error "Project file not found: C:/proj/Foo.uproject" ∧
    derive_editor_target { fsFoo with sourceIsDir := false } = Except.ok "FooEditor" := by
  constructor
  · exact (derive_editor_target_missing_paths { fsFoo with projectExists := false } "Foo").1 rfl
  · have h := (derive_editor_target_missing_paths { fsFoo with sourceIsDir := false } "Foo").2
      rfl rfl rfl rfl
    have he : expectedName "Foo" = "FooEditor" := by decide
    rw [he] at h
    exact h

/-- Counterexample for C3: the claim says a non-blank override is returned
verbatim including surrounding whitespace; on override `" Foo "` (non-blank
after trimming) the code returns the trimmed string `"Foo"`, not the
verbatim `" Foo "`. -/
theorem override_not_verbatim_counterexample :
    chIsEmpty (chTrim " Foo ") = false ∧
    resolve_target_name (some " Foo ") fsFoo ≠ Except.ok " Foo " ∧
    resolve_target_name (some " Foo ") fsFoo = Except.ok "Foo" := by decide

/-- C3 (amended): for every override that is non-blank after trimming, the
resolved target name is the trimmed override, and no filesystem discovery
is performed — the result is the same for every filesystem state. -/
theorem override_trimmed_skips_discovery (o : String) (fs fs' : BuildFs)
    (h : chIsEmpty (chTrim o) = false) :
    resolve_target_name (some o) fs = Except.ok (chTrim o) ∧
    resolve_target_name (some o) fs = resolve_target_name (some o) fs' := by
  simp [resolve_target_name, Option.filter, h]

/-- Witness for C3 (amended): override `" Foo "` resolves to `"Foo"` on the
concrete filesystem `fsFoo`. -/
theorem override_trimmed_skips_discovery_witness :
    resolve_target_name (some " Foo ") fsFoo = Except.ok (chTrim " Foo ") :=
  (override_trimmed_skips_discovery " Foo " fsFoo fsFoo (by decide)).1

/-- C6: when the UnrealBuildTool entry point does not exist under the
engine root, `spawn_build` returns the `ToolNotFound`-style error
synchronously; the `Except.error` result carries no `SpawnOk` payload, so
no pre-task log line, no resolved target, no handle and no background task
exist (in the source the error return precedes every `tx.send` and the
`tokio::spawn`). -/
theorem spawn_build_tool_not_found (env : SpawnEnv) (mode : BuildMode)
    (h : env.ubtExists = false) :
    spawn_build env mode =
      Except.error ("UnrealBuildTool not found at " ++ env.ubtDisplay) := by
  simp [spawn_build, h]

/-- Witness for C6: a concrete environment with the tool missing. -/
theorem spawn_build_tool_not_found_witness :
    spawn_build
      { ubtDisplay := "C:/engine/Engine/Binaries/DotNET/UnrealBuildTool/UnrealBuildTool.dll",
        ubtExists := false, projectPath := "C:/proj/Foo.uproject",
        editorTargetOverride := none, fs := fsFoo } BuildMode.Standard =
      Except.error ("UnrealBuildTool not found at C:/engine/Engine/Binaries/DotNET/UnrealBuildTool/UnrealBuildTool.dll") :=
  spawn_build_tool_not_found _ _ rfl

/-- Removal loop: when every existing path in the list removes cleanly, the
loop returns `Ok`. -/
theorem removeEach_ok (kind : String) (fs : CleanFs) (ps : List String)
    (h : ∀ p ∈ ps, p ∈ fs.live → fs.failRemove p = none) :
    (removeEach kind fs ps).result = Except.ok () := by
  induction ps generalizing fs with
  | nil => rfl
  | cons p rest ih =>
    by_cases hp : fs.live.contains p
    · have hl : p ∈ fs.live := by simpa using hp
      have hf : fs.failRemove p = none := h p (by simp) hl
      simp only [removeEach, hp, if_true, removePath, hf]
      apply ih
      intro q hq hql
      exact h q (by simp [hq]) (List.mem_of_mem_erase hql)
    · simp only [removeEach, hp, if_false]
      apply ih
      intro q hq hql
      exact h q (by simp [hq]) hql

/-- Removal loop: the set of existing paths only shrinks. -/
theorem removeEach_live_subset (kind : String) (fs : CleanFs) (ps : List String) :
    (removeEach kind fs ps).fs.live ⊆ fs.live := by
  induction ps generalizing fs with
  | nil => exact fun q hq => hq
  | cons p rest ih =>
    by_cases hp : fs.live.contains p
    · cases hf : fs.failRemove p with
      | some e => simp only [removeEach, hp, if_true, removePath, hf]; exact fun q hq => hq
      | none =>
        simp only [removeEach, hp, if_true, removePath, hf]
        exact fun q hq => List.mem_of_mem_erase (ih _ hq)
    · simp only [removeEach, hp, if_false]
      exact ih fs

/-- Removal loop: an error arises only from a removal failure on an
existing path in the list; the error names that path, and its attempt log
is the last line emitted (the loop aborts immediately). -/
theorem removeEach_error (kind : String) (fs : CleanFs) (ps : List String) (e : String)
    (h : (removeEach kind fs ps).result = Except.error e) :
    ∃ p m, p ∈ ps ∧ p ∈ fs.live ∧ fs.failRemove p = some m ∧
      e = "Failed to remove " ++ p ++ ": " ++ m ∧
      (removeEach kind fs ps).logs.getLast? = some ("Removing " ++ kind ++ ": " ++ p) := by
  induction ps generalizing fs with
  | nil => simp [removeEach] at h
  | cons p rest ih =>
    by_cases hp : fs.live.contains p
    · have hl : p ∈ fs.live := by simpa using hp
      cases hf : fs.failRemove p with
      | some m =>
        simp only [removeEach, hp, if_true, removePath, hf] at h ⊢
        refine ⟨p, m, by simp, hl, hf, ?_, ?_⟩
        · cases h; rfl
        · rfl
      | none =>
        simp only [removeEach, hp, if_true, removePath, hf] at h ⊢
        obtain ⟨q, m, hq, hql, hqf, hqe, hqlast⟩ := ih _ h
        refine ⟨q, m, by simp [hq], List.mem_of_mem_erase hql, hqf, hqe, ?_⟩
        rw [List.getLast?_cons]
        simp only [hqlast]
        cases hlogs : (removeEach kind { live := fs.live.erase p, failRemove := fs.failRemove } rest).logs with
        | nil => rw [hlogs] at hqlast; simp at hqlast
        | cons x xs => rw [hlogs] at hqlast; simp [hqlast]
    · simp only [removeEach, hp, if_false] at h ⊢
      obtain ⟨q, m, hq, hql, hqf, hqe, hqlast⟩ := ih _ h
      exact ⟨q, m, by simp [hq], hql, hqf, hqe, hqlast⟩

/-- Removal loop: every log line names an existing path from the list
(missing paths produce no log line). -/
theorem removeEach_logs (kind : String) (fs : CleanFs) (ps : List String) :
    ∀ l ∈ (removeEach kind fs ps).logs, ∃ p, p ∈ ps ∧ p ∈ fs.live ∧
      l = "Removing " ++ kind ++ ": " ++ p := by
  induction ps generalizing fs with
  | nil => simp [removeEach]
  | cons p rest ih =>
    by_cases hp : fs.live.contains p
    · have hl : p ∈ fs.live := by simpa using hp
      cases hf : fs.failRemove p with
      | some m =>
        simp only [removeEach, hp, if_true, removePath, hf]
        intro l hlmem
        simp at hlmem
        exact ⟨p, by simp, hl, hlmem⟩
      | none =>
        simp only [removeEach, hp, if_true, removePath, hf]
        intro l hlmem
        rcases List.mem_cons.mp hlmem with heq | htail
        · exact ⟨p, by simp, hl, heq⟩
        · obtain ⟨q, hq, hql, hle⟩ := ih _ l htail
          exact ⟨q, by simp [hq], List.mem_of_mem_erase hql, hle⟩
    · simp only [removeEach, hp, if_false]
      intro l hlmem
      obtain ⟨q, hq, hql, hle⟩ := ih _ l hlmem
      exact ⟨q, by simp [hq], hql, hle⟩

/-- Removal loop: successfully removed paths stay removed — none of them
is in the final existing set (removals are not rolled back). -/
theorem removeEach_removed (kind : String) (fs : CleanFs) (ps : List String)
    (hnd : fs.live.Nodup) :
    ∀ q ∈ (removeEach kind fs ps).removed, q ∉ (removeEach kind fs ps).fs.live := by
  induction ps generalizing fs with
  | nil => simp [removeEach]
  | cons p rest ih =>
    by_cases hp : fs.live.contains p
    · cases hf : fs.failRemove p with
      | some m =>
        have hl : p ∈ fs.live := by simpa using hp
        simp [removeEach, hp, removePath, hf, hl]
      | none =>
        simp only [removeEach, hp, if_true, removePath, hf]
        intro q hqmem
        rcases List.mem_cons.mp hqmem with heq | htail
        · intro hqin
          rw [heq] at hqin
          have hsub := removeEach_live_subset kind
            { live := fs.live.erase p, failRemove := fs.failRemove } rest
          exact (List.Nodup.not_mem_erase hnd) (hsub hqin)
        · exact ih _ (List.Nodup.erase p hnd) q htail
    · simp only [removeEach, hp, if_false]
      exact ih _ hnd

/-- Removal loop: the removal-failure oracle is untouched. -/
theorem removeEach_failRemove (kind : String) (fs : CleanFs) (ps : List String) :
    (removeEach kind fs ps).fs.failRemove = fs.failRemove := by
  induction ps generalizing fs with
  | nil => rfl
  | cons p rest ih =>
    by_cases hp : fs.live.contains p
    · cases hf : fs.failRemove p with
      | some e => simp only [removeEach, hp, if_true, removePath, hf]
      | none => simp only [removeEach, hp, if_true, removePath, hf]; exact ih _
    · simp only [removeEach, hp, if_false]; exact ih fs

/-- Removal loop: distinctness of the existing paths is preserved. -/
theorem removeEach_nodup (kind : String) (fs : CleanFs) (ps : List String)
    (hnd : fs.live.Nodup) : (removeEach kind fs ps).fs.live.Nodup := by
  induction ps generalizing fs with
  | nil => exact hnd
  | cons p rest ih =>
    by_cases hp : fs.live.contains p
    · cases hf : fs.failRemove p with
      | some e => simp only [removeEach, hp, if_true, removePath, hf]; exact hnd
      | none =>
        simp only [removeEach, hp, if_true, removePath, hf]
        exact ih _ (List.Nodup.erase p hnd)
    · simp only [removeEach, hp, if_false]; exact ih fs hnd

/-- C4: the artifact-clean step never errors on a path that does not exist
(it succeeds whenever every existing candidate path removes cleanly, and
its log lines only ever name existing paths — missing ones are skipped
silently); it errors exactly when removing an existing path fails, in
which case the error names the failing path, the failing attempt is the
last log line (the step aborts immediately), and removals already
performed are not rolled back (removed paths are absent from the final
filesystem, which only ever shrinks). -/
theorem clean_project_artifacts_error_semantics (fs : CleanFs) (pdir slnFromProject : String)
    (stem : Option String) (hnd : fs.live.Nodup) :
    ((∀ p ∈ cleanCandidates pdir slnFromProject stem, p ∈ fs.live → fs.failRemove p = none) →
      (clean_project_artifacts fs (some pdir) slnFromProject stem).result = Except.ok ()) ∧
    (∀ e, (clean_project_artifacts fs (some pdir) slnFromProject stem).result = Except.error e →
      ∃ kind p m, (kind = "directory" ∨ kind = "file") ∧
        p ∈ cleanCandidates pdir slnFromProject stem ∧ p ∈ fs.live ∧
        fs.failRemove p = some m ∧ e = "Failed to remove " ++ p ++ ": " ++ m ∧
        (clean_project_artifacts fs (some pdir) slnFromProject stem).logs.getLast? =
          some ("Removing " ++ kind ++ ": " ++ p)) ∧
    (∀ l ∈ (clean_project_artifacts fs (some pdir) slnFromProject stem).logs, ∃ p, p ∈ fs.live ∧
      (l = "Removing directory: " ++ p ∨ l = "Removing file: " ++ p)) ∧
    (∀ q ∈ (clean_project_artifacts fs (some pdir) slnFromProject stem).removed,
      q ∉ (clean_project_artifacts fs (some pdir) slnFromProject stem).fs.live) ∧
    (clean_project_artifacts fs (some pdir) slnFromProject stem).fs.live ⊆ fs.live := by
  cases hd : (removeEach "directory" fs (cleanDirs pdir)).result with
  | error e' =>
    have hout : clean_project_artifacts fs (some pdir) slnFromProject stem =
        removeEach "directory" fs (cleanDirs pdir) := by
      simp only [clean_project_artifacts, hd]
    rw [hout]
    obtain ⟨p, m, hp, hl, hf, he, hlast⟩ := removeEach_error "directory" fs (cleanDirs pdir) e' hd
    refine ⟨?_, ?_, ?_, ?_, ?_⟩
    · intro h
      have := removeEach_ok "directory" fs (cleanDirs pdir)
        (fun q hq hql => h q (by simp [cleanCandidates, hq]) hql)
      rw [hd] at this; cases this
    · intro e2 he2
      rw [hd] at he2
      cases he2
      exact ⟨"directory", p, m, Or.inl rfl, by simp [cleanCandidates, hp], hl, hf, he, hlast⟩
    · intro l hlmem
      obtain ⟨q, hq, hql, hle⟩ := removeEach_logs "directory" fs (cleanDirs pdir) l hlmem
      exact ⟨q, hql, Or.inl hle⟩
    · exact removeEach_removed "directory" fs (cleanDirs pdir) hnd
    · exact removeEach_live_subset "directory" fs (cleanDirs pdir)
  | ok u =>
    cases u
    have hout : clean_project_artifacts fs (some pdir) slnFromProject stem =
        { fs := (removeEach "file" (removeEach "directory" fs (cleanDirs pdir)).fs
              (slnFiles pdir slnFromProject stem)).fs,
          logs := (removeEach "directory" fs (cleanDirs pdir)).logs ++
            (removeEach "file" (removeEach "directory" fs (cleanDirs pdir)).fs
              (slnFiles pdir slnFromProject stem)).logs,
          removed := (removeEach "directory" fs (cleanDirs pdir)).removed ++
            (removeEach "file" (removeEach "directory" fs (cleanDirs pdir)).fs
              (slnFiles pdir slnFromProject stem)).removed,
          result := (removeEach "file" (removeEach "directory" fs (cleanDirs pdir)).fs
              (slnFiles pdir slnFromProject stem)).result } := by
      simp only [clean_project_artifacts, hd]
    set dfs := (removeEach "directory" fs (cleanDirs pdir)).fs with hdfs
    have hsubd : dfs.live ⊆ fs.live := removeEach_live_subset "directory" fs (cleanDirs pdir)
    have hfrd : dfs.failRemove = fs.failRemove :=
      removeEach_failRemove "directory" fs (cleanDirs pdir)
    have hndd : dfs.live.Nodup := removeEach_nodup "directory" fs (cleanDirs pdir) hnd
    rw [hout]
    refine ⟨?_, ?_, ?_, ?_, ?_⟩
    · intro h
      exact removeEach_ok "file" dfs (slnFiles pdir slnFromProject stem)
        (fun q hq hql => by
          rw [hfrd]
          exact h q (by simp [cleanCandidates, hq]) (hsubd hql))
    · intro e2 he2
      simp only at he2
      obtain ⟨p, m, hp, hl, hf, he, hlast⟩ :=
        removeEach_error "file" dfs (slnFiles pdir slnFromProject stem) e2 he2
      refine ⟨"file", p, m, Or.inr rfl, by simp [cleanCandidates, hp], hsubd hl, ?_, he, ?_⟩
      · rw [← hfrd]; exact hf
      · simp only
        have hne : (removeEach "file" dfs (slnFiles pdir slnFromProject stem)).logs ≠ [] := by
          intro hemp
          rw [hemp] at hlast
          simp at hlast
        rw [List.getLast?_append_of_ne_nil _ hne]
        exact hlast
    · intro l hlmem
      simp only [List.mem_append] at hlmem
      rcases hlmem with hld | hlf
      · obtain ⟨q, hq, hql, hle⟩ := removeEach_logs "directory" fs (cleanDirs pdir) l hld
        exact ⟨q, hql, Or.inl hle⟩
      · obtain ⟨q, hq, hql, hle⟩ :=
          removeEach_logs "file" dfs (slnFiles pdir slnFromProject stem) l hlf
        exact ⟨q, hsubd hql, Or.inr hle⟩
    · intro q hqmem
      simp only [List.mem_append] at hqmem
      have hsubf := removeEach_live_subset "file" dfs (slnFiles pdir slnFromProject stem)
      rcases hqmem with hqd | hqf
      · intro hqin
        exact removeEach_removed "directory" fs (cleanDirs pdir) hnd q hqd (hsubf hqin)
      · exact removeEach_removed "file" dfs (slnFiles pdir slnFromProject stem) hndd q hqf
    · exact fun q hq =>
        hsubd (removeEach_live_subset "file" dfs (slnFiles pdir slnFromProject stem) hq)

/-- Witness for C4: on a concrete filesystem where `Binaries` and the
stem solution file exist and all removals succeed, cleanup returns `Ok`. -/
theorem clean_project_artifacts_error_semantics_witness :
    cleanFsFoo.live.Nodup ∧
    (clean_project_artifacts cleanFsFoo (some "C:/proj") "C:/proj/Foo.sln"
      (some "Foo")).result = Except.ok () := by
  refine ⟨by decide, ?_⟩
  refine (clean_project_artifacts_error_semantics cleanFsFoo "C:/proj" "C:/proj/Foo.sln"
    (some "Foo") (by decide)).1 ?_
  intro p hp hl
  rfl

/-- Counterexample for C2: the claim quantifies over both modes, but in
Standard mode there is no cancellation check before the compile spawn —
with the cancel flag set from the start (every load returns true), the
compile subprocess IS spawned (and then killed at the first poll), so
"the compile subprocess is never spawned" fails. -/
theorem cancel_before_compile_standard_counterexample :
    envCancelled.cancelAtCleanCheck = true ∧ envCancelled.cancelAtRegenCheck = true ∧
    envCancelled.cancelPoll 0 = true ∧
    BuildEv.spawnCompile ∈ (buildTask BuildMode.Standard envCancelled).1 ∧
    (buildTask BuildMode.Standard envCancelled).2.2 = (true, false) := by decide

/-- C2 (amended): in CleanRebuild mode, a cancel flag observed set at the
pre-clean or pre-regeneration checkpoint means the compile subprocess is
never spawned and the handle reaches Finished with success = false; in
Standard mode there is no pre-spawn check — a flag observed set at the
first poll-loop load means the process is spawned, then killed, and the
handle still reaches Finished with success = false. -/
theorem cancel_checkpoints_and_poll (env : RunEnv) :
    (env.cancelAtCleanCheck = true →
      BuildEv.spawnCompile ∉ (buildTask BuildMode.CleanRebuild env).1 ∧
      (buildTask BuildMode.CleanRebuild env).2.2 = (true, false)) ∧
    (env.cancelAtRegenCheck = true →
      BuildEv.spawnCompile ∉ (buildTask BuildMode.CleanRebuild env).1 ∧
      (buildTask BuildMode.CleanRebuild env).2.2 = (true, false)) ∧
    (env.cancelPoll 0 = true → env.compileSpawnError = none →
      BuildEv.spawnCompile ∈ (buildTask BuildMode.Standard env).1 ∧
      BuildEv.killCompile ∈ (buildTask BuildMode.Standard env).1 ∧
      (buildTask BuildMode.Standard env).2.2 = (true, false)) := by
  refine ⟨?_, ?_, ?_⟩
  · intro hc
    simp [buildTask, run_build_process, hc]
  · intro hc
    by_cases hcc : env.cancelAtCleanCheck
    · simp [buildTask, run_build_process, hcc]
    · simp only [buildTask, run_build_process, hcc, if_false, Bool.false_eq_true]
      cases hres : (clean_project_artifacts env.cleanFs env.projectDir
          env.slnFromProject env.stem).result with
      | error e => simp
      | ok u => cases u; simp [hc]
  · intro hc hsp
    have hpl : pollLoop env.cancelPoll env.exitSuccess env.exitAfterPolls 0 =
        ([BuildEv.killCompile, BuildEv.log "Build process killed."], Except.ok false) := by
      cases env.exitAfterPolls with
      | zero => simp [pollLoop, hc]
      | succ n => simp [pollLoop, hc]
    simp [buildTask, run_build_process, compilePhase, hsp, hpl]

/-- Witness for C2 (amended): the CleanRebuild pre-clean checkpoint on a
concrete environment whose flag is set from the start. -/
theorem cancel_checkpoints_and_poll_witness :
    BuildEv.spawnCompile ∉ (buildTask BuildMode.CleanRebuild envCancelled).1 ∧
    (buildTask BuildMode.CleanRebuild envCancelled).2.2 = (true, false) :=
  (cancel_checkpoints_and_poll envCancelled).1 rfl

/-- C5: in CleanRebuild mode, when the regeneration command exits non-zero
(and the run reached it: no cancellation, clean succeeded), the sequence
aborts — the compile subprocess is never spawned, the `Build error:` log
line reporting the regeneration failure status is emitted, the handle
reaches Finished with success = false, and the cleanup already performed is
not undone (the final filesystem is exactly the post-clean one). -/
theorem regen_failure_aborts_sequence (env : RunEnv)
    (h1 : env.cancelAtCleanCheck = false) (h2 : env.cancelAtRegenCheck = false)
    (h3 : (clean_project_artifacts env.cleanFs env.projectDir
      env.slnFromProject env.stem).result = Except.ok ())
    (h4 : env.regen.spawnError = none) (h5 : env.regen.exitSuccess = false) :
    BuildEv.spawnCompile ∉ (buildTask BuildMode.CleanRebuild env).1 ∧
    BuildEv.log ("Build error: Project file generation failed with status: "
      ++ env.regen.statusDisplay) ∈ (buildTask BuildMode.CleanRebuild env).1 ∧
    (buildTask BuildMode.CleanRebuild env).2.2 = (true, false) ∧
    (buildTask BuildMode.CleanRebuild env).2.1 =
      (clean_project_artifacts env.cleanFs env.projectDir env.slnFromProject env.stem).fs := by
  have hcat : ("Build error: " ++ "Project file generation failed with status: ") =
      "Build error: Project file generation failed with status: " := by decide
  have key : "Build error: Project file generation failed with status: "
        ++ env.regen.statusDisplay =
      "Build error: " ++ ("Project file generation failed with status: "
        ++ env.regen.statusDisplay) := by
    rw [← String.append_assoc, hcat]
  refine ⟨?_, ?_, ?_, ?_⟩
  · simp [buildTask, run_build_process, h1, h2, h3, regenerate_project_files, h4, h5]
  · rw [key]
    simp [buildTask, run_build_process, h1, h2, h3, regenerate_project_files, h4, h5]
  · simp [buildTask, run_build_process, h1, h2, h3, regenerate_project_files, h4, h5]
  · simp [buildTask, run_build_process, h1, h2, h3, regenerate_project_files, h4, h5]

/-- Witness for C5: concrete clean-rebuild run whose regeneration exits
with status 6. -/
theorem regen_failure_aborts_sequence_witness :
    BuildEv.spawnCompile ∉ (buildTask BuildMode.CleanRebuild envRegenFails).1 ∧
    BuildEv.log ("Build error: Project file generation failed with status: "
      ++ envRegenFails.regen.statusDisplay) ∈ (buildTask BuildMode.CleanRebuild envRegenFails).1 ∧
    (buildTask BuildMode.CleanRebuild envRegenFails).2.2 = (true, false) ∧
    (buildTask BuildMode.CleanRebuild envRegenFails).2.1 =
      (clean_project_artifacts envRegenFails.cleanFs envRegenFails.projectDir
        envRegenFails.slnFromProject envRegenFails.stem).fs :=
  regen_failure_aborts_sequence envRegenFails rfl rfl (by decide) rfl rfl

/-- C10: during regeneration no subprocess output line reaches the log
channel before the process-exit event (every `line` event in the phase
trace is preceded by `procExited`); afterwards the delivered lines are
exactly the non-blank stdout lines in their original order followed by the
non-blank stderr lines in their original order (order preservation stated
via `Sublist`), every delivered line is non-blank after trimming, and every
non-blank source line is delivered. -/
theorem regen_output_buffered_ordered_filtered (r : RegenEnv) (h : r.spawnError = none) :
    (∀ pre l post, regen_trace r = pre ++ RegenEv.line l :: post →
      RegenEv.procExited ∈ pre) ∧
    (regenerate_project_files r).1 =
      r.stdoutLines.filter keepLine ++ r.stderrLines.filter keepLine ∧
    (r.stdoutLines.filter keepLine).Sublist r.stdoutLines ∧
    (r.stderrLines.filter keepLine).Sublist r.stderrLines ∧
    (∀ l ∈ (regenerate_project_files r).1, keepLine l = true) ∧
    (∀ l ∈ r.stdoutLines ++ r.stderrLines, keepLine l = true →
      l ∈ (regenerate_project_files r).1) := by
  refine ⟨?_, ?_, List.filter_sublist _, List.filter_sublist _, ?_, ?_⟩
  · intro pre l post heq
    simp only [regen_trace, h] at heq
    cases pre with
    | nil => simp at heq
    | cons a pre2 =>
      rw [List.cons_append] at heq
      simp only [List.cons.injEq] at heq
      rw [heq.1]
      exact List.mem_cons_self _ _
  · simp [regenerate_project_files, h, regenLogs]
  · intro l hl
    simp only [regenerate_project_files, h, regenLogs] at hl
    rcases List.mem_append.mp hl with ho | he
    · exact (List.mem_filter.mp ho).2
    · exact (List.mem_filter.mp he).2
  · intro l hl hkeep
    simp only [regenerate_project_files, h, regenLogs]
    rcases List.mem_append.mp hl with ho | he
    · exact List.mem_append.mpr (Or.inl (List.mem_filter.mpr ⟨ho, hkeep⟩))
    · exact List.mem_append.mpr (Or.inr (List.mem_filter.mpr ⟨he, hkeep⟩))

/-- Witness for C10: concrete output with blank and whitespace-only lines
interspersed — the delivered lines are the non-blank stdout lines then the
non-blank stderr lines. -/
theorem regen_output_buffered_ordered_filtered_witness :
    (regenerate_project_files
      { spawnError := none, stdoutLines := ["alpha", "", "  ", "beta"],
        stderrLines := ["", "warn: x"], exitSuccess := true,
        statusDisplay := "exit code: 0" }).1 = ["alpha", "beta", "warn: x"] := by
  have h := (regen_output_buffered_ordered_filtered
    { spawnError := none, stdoutLines := ["alpha", "", "  ", "beta"],
      stderrLines := ["", "warn: x"], exitSuccess := true,
      statusDisplay := "exit code: 0" } rfl).2.1
  rw [h]
  decide

/-- C7: the handle's `finished` flag starts false and, over the background
task's stores (success first, then finished, nothing after), transitions
to true exactly once and is never reset; `try_finished` reads `none` on
every state before the final store and `some` of the build's final success
value on the final state — and, being a pure read, on every subsequent
call as well. -/
theorem handle_finished_lifecycle (r : Except String Bool) :
    handleStates r =
      [{ finished := false, success := false, cancelRequested := false },
       { finished := false, success := resultSuccess r, cancelRequested := false },
       { finished := true, success := resultSuccess r, cancelRequested := false }] ∧
    (handleStates r).map HandleState.finished = [false, false, true] ∧
    (handleStates r).map try_finished = [none, none, some (resultSuccess r)] :=
  ⟨rfl, rfl, rfl⟩

/-- C8: `cancel` is idempotent — any sequence of `n ≥ 1` cancel calls
leaves the handle in exactly the state of a single call; since the
background task observes the handle only through its flags, the build's
observable behavior is likewise identical. -/
theorem cancel_idempotent (s : HandleState) (n : Nat) (h : 1 ≤ n) :
    cancel^[n] s = cancel s := by
  obtain ⟨k, rfl⟩ : ∃ k, n = k + 1 := ⟨n - 1, by omega⟩
  rw [Function.iterate_succ_apply]
  exact Function.iterate_fixed rfl k

/-- Witness for C8: two cancel calls on the freshly created handle equal
one. -/
theorem cancel_idempotent_witness : cancel^[2] initialHandle = cancel initialHandle :=
  cancel_idempotent initialHandle 2 (by decide)

end StellarBuild
